import Mathlib

/-!
Shallow embedding of the two data-preparation scripts of the `tlc-voice`
repository — `src/firebase/scripts/process-dealer-excel.py` (the Excel
Importer) and `src/firebase/scripts/expand-dealer-coverage.py` (the Coverage
Expander) — together with proofs and refutations of the spec's testable
properties.

Modelling conventions:
  * Python strings are `String`, `pd.isna`-able cells are `Option`s, and a
    spreadsheet ZIP cell (which pandas may deliver as a float) is a `CellVal`.
  * Python floats carrying integral ZIP values are modelled as `ℚ`;
    `int(x)` is truncation toward zero.
  * `str.strip()` / `str.lower()` / `str.upper()` / `str.isdigit()` /
    `str.zfill` are modelled character-exactly on the ASCII range the data
    lives in (`pyStrip`, `pyLower`, `pyUpper`, `pyIsDigit`, `zfill`).
  * The geographic reference table (`zip_coords` in the Expander, an external
    dataset) is an association list from ZIP strings to rational coordinate
    pairs; coordinates are cast to `ℝ` inside the distance computation, which
    models the script's floating-point haversine with exact real arithmetic.
-/

/-! ## Python string primitives -/

/-- Characters `str.strip()` removes (Python's notion of whitespace for
`str.split`/`strip` on ASCII data). -/
def pyIsSpace (c : Char) : Bool :=
  c == ' ' || c == '\t' || c == '\n' || c == '\r' || c == '\x0b' || c == '\x0c'

/-- Python `s.strip(chars)` on a character list: drop matching characters
from both ends. -/
def stripEnds (p : Char → Bool) (l : List Char) : List Char :=
  ((l.dropWhile p).reverse.dropWhile p).reverse

/-- Python `s.strip()`: remove leading and trailing whitespace. -/
def pyStrip (s : String) : String :=
  String.mk (stripEnds pyIsSpace s.data)

/-- Python `s.isdigit()` on ASCII data: nonempty and every character a digit. -/
def pyIsDigit (s : String) : Bool :=
  !s.data.isEmpty && s.data.all Char.isDigit

/-- Python `s.lower()` on the ASCII range: map each character to lower case. -/
def pyLower (s : String) : String :=
  String.mk (s.data.map Char.toLower)

/-- Python `s.upper()` on the ASCII range: map each character to upper case. -/
def pyUpper (s : String) : String :=
  String.mk (s.data.map Char.toUpper)

/-- Python `s.zfill(w)`: left-pad with zeros to width `w`.  (Python also
moves a leading sign; both scripts only ever apply `zfill` to all-digit
strings, where no sign occurs, so the sign case is not modelled.) -/
def zfill (w : Nat) (s : String) : String :=
  if w ≤ s.length then s
  else String.mk (List.replicate (w - s.length) '0' ++ s.data)

/-- Python `s.split(c)[0]`: the text before the first newline. -/
def firstLine (s : String) : String :=
  String.mk (s.data.takeWhile fun c => c != '\n')

/-! ## Coverage Expander: ZIP normalization (expand-dealer-coverage.py,
`main`, the cleaning of `dealer_zip` before the table lookup) -/

/-- ZIP normalization of the Expander:
`dealer_zip = str(dealer_zip).strip()`; if not `isdigit`, keep only the digit
characters; then `zfill(5)[:5]`. -/
def normalizeZip (z : String) : String :=
  let z1 := pyStrip z
  let z2 := if pyIsDigit z1 then z1 else String.mk (z1.data.filter Char.isDigit)
  String.mk ((zfill 5 z2).data.take 5)

/-! ## Coverage Expander: haversine distance (expand-dealer-coverage.py,
`haversine_vec`) -/

/-- Numpy `arctan2 y x`: the angle of the point `(x, y)`, in `(-π, π]`;
`arctan2 0 0 = 0`. -/
noncomputable def arctan2 (y x : ℝ) : ℝ :=
  if 0 < x then Real.arctan (y / x)
  else if x < 0 then
    (if 0 ≤ y then Real.arctan (y / x) + Real.pi else Real.arctan (y / x) - Real.pi)
  else
    (if 0 < y then Real.pi / 2 else if y < 0 then -(Real.pi / 2) else 0)

/-- Numpy `radians`: degrees to radians. -/
noncomputable def radians (d : ℝ) : ℝ := d * Real.pi / 180

/-- The Expander's `haversine_vec`, per pair (the source vectorizes over the
candidate array; per the spec, vectorization is a performance technique, so
the model is the per-candidate scalar computation):
`R = 3959`; `lat1_rad = radians lat1`; `lats_rad = radians lats`;
`dlat = radians (lats - lat1)`; `dlon = radians (lons - lon1)`;
`a = sin(dlat/2)^2 + cos(lat1_rad) * cos(lats_rad) * sin(dlon/2)^2`;
`c = 2 * arctan2 (sqrt a) (sqrt (1-a))`; result `R * c`. -/
noncomputable def haversine_vec (lat1 lon1 lats lons : ℝ) : ℝ :=
  let R : ℝ := 3959
  let lat1_rad := radians lat1
  let lats_rad := radians lats
  let dlat := radians (lats - lat1)
  let dlon := radians (lons - lon1)
  let a := Real.sin (dlat / 2) ^ 2 +
    Real.cos lat1_rad * Real.cos lats_rad * Real.sin (dlon / 2) ^ 2
  let c := 2 * arctan2 (Real.sqrt a) (Real.sqrt (1 - a))
  R * c

/-- The spec's haversine formula, written exactly as §4.2 states it: convert
all four coordinates to radians, take the differences there, and return
`2 * R * arctan2 (sqrt a) (sqrt (1 - a))` with `R = 3959`. -/
noncomputable def haversineSpec (lat1 lon1 lat2 lon2 : ℝ) : ℝ :=
  let R : ℝ := 3959
  let phi1 := radians lat1
  let lam1 := radians lon1
  let phi2 := radians lat2
  let lam2 := radians lon2
  let dphi := phi2 - phi1
  let dlam := lam2 - lam1
  let a := Real.sin (dphi / 2) ^ 2 +
    Real.cos phi1 * Real.cos phi2 * Real.sin (dlam / 2) ^ 2
  2 * R * arctan2 (Real.sqrt a) (Real.sqrt (1 - a))

/-! ## Data model -/

/-- A spreadsheet cell holding a ZIP: pandas delivers either a float (Excel
numeric storage) or a string.  Floats are modelled as rationals. -/
inductive CellVal where
  | num (q : ℚ)
  | txt (s : String)
deriving DecidableEq, Repr

/-- Python `int(q)` for a float: truncation toward zero. -/
def pyTruncInt (q : ℚ) : ℤ :=
  if 0 ≤ q then q.floor else q.ceil

/-- Python `str(...)` of a ZIP cell: `str(int(v))` for a float, `str(v)` for
a string (as in `clean_zip`). -/
def cellStr : CellVal → String
  | .num q => toString (pyTruncInt q)
  | .txt s => s

/-- The `address` object of a dealer record. -/
structure Address where
  street : Option String
  city : Option String
  state : Option String
  zip : Option String
deriving DecidableEq, Repr

/-- A dealer record as both scripts persist it (JSON-absent optional fields
are `none`; `coverage_radius_miles` is absent until the Expander sets it). -/
structure Dealer where
  dealer_id : String
  dealer_name : String
  status : String
  primary_contact_name : Option String
  primary_contact_email : Option String
  primary_phone : Option String
  address : Address
  coverage_zips : List String
  coverage_radius_miles : Option ℤ
  priority_weight : ℤ
  lead_delivery_method : String
  is_top50 : Bool
  notes : Option String
deriving DecidableEq, Repr

/-- One row of the `112 Dealers` sheet (11 fixed positional columns; a
missing cell is `none`, mirroring `pd.isna`). -/
structure Row where
  dealer_name : Option String
  contact_name : Option String
  notes : Option String
  phone : Option String
  address : Option String
  city : Option String
  state : Option String
  zip : Option CellVal
  email : Option String
  email2 : Option String
  extra : Option String
deriving DecidableEq, Repr

/-- The Expander's reference table `zip_coords`: ZIP string to (latitude,
longitude).  The script builds it as a Python dict with unique keys; it is
modelled as an association list looked up by first match. -/
abbrev ZipTable := List (String × ℚ × ℚ)

/-- Dictionary lookup `zip_coords[z]` / `z in zip_coords`. -/
def lookupCoords : ZipTable → String → Option (ℚ × ℚ)
  | [], _ => none
  | (k, c) :: rest, z => if k = z then some c else lookupCoords rest z

/-- The key list `all_zip_list = list(zip_coords.keys())`. -/
def zipKeys (table : ZipTable) : List String :=
  table.map Prod.fst

/-! ## Coverage Expander: per-dealer expansion (expand-dealer-coverage.py,
`main`, the body of the dealer loop) -/

/-- The ZIPs within `radius` of the center, sorted: the script computes
`distances = haversine_vec(center_lat, center_lon, all_lats, all_lons)`,
masks `distances <= radius_miles` and sorts the surviving members of
`all_zip_list` lexicographically.  Per-key coordinates come from the same
`zip_coords` the key list is drawn from. -/
noncomputable def nearbyZips (table : ZipTable) (radius : ℤ)
    (lat lon : ℚ) : List String :=
  ((zipKeys table).filter fun w =>
    match lookupCoords table w with
    | some (la, lo) =>
        decide (haversine_vec (lat : ℝ) (lon : ℝ) (la : ℝ) (lo : ℝ) ≤ (radius : ℝ))
    | none => false).mergeSort fun a b => decide (a ≤ b)

/-- One iteration of the Expander's dealer loop:
  * `dealer.get('address', {}).get('zip')` missing or falsy (`None` or the
    empty string) — set `coverage_zips` to `[]`;
  * normalized ZIP not a key of `zip_coords` — set `coverage_zips` to the
    singleton of the normalized ZIP;
  * otherwise — set `coverage_zips` to the sorted within-radius keys and
    `coverage_radius_miles` to the radius. -/
noncomputable def expandDealer (table : ZipTable) (radius : ℤ) (d : Dealer) :
    Dealer :=
  match d.address.zip with
  | none => { d with coverage_zips := [] }
  | some z =>
      if z = "" then { d with coverage_zips := [] }
      else
        match lookupCoords table (normalizeZip z) with
        | none => { d with coverage_zips := [normalizeZip z] }
        | some (lat, lon) =>
            { d with
              coverage_zips := nearbyZips table radius lat lon
              coverage_radius_miles := some radius }

/-- Outcome classifier for the three mutually exclusive resolution branches
of the dealer loop (the `stats` counters of the script). -/
inductive ExpandOutcome where
  | skippedNoZip
  | skippedNotFound
  | expanded
deriving DecidableEq, Repr

/-- Which branch of the loop a dealer takes. -/
def expandOutcome (table : ZipTable) (d : Dealer) : ExpandOutcome :=
  match d.address.zip with
  | none => .skippedNoZip
  | some z =>
      if z = "" then .skippedNoZip
      else
        match lookupCoords table (normalizeZip z) with
        | none => .skippedNotFound
        | some _ => .expanded

/-! ## Excel Importer: field cleaning (process-dealer-excel.py) -/

/-- Characters of the regex class `[a-zA-Z0-9]`, by code point:
`A`–`Z` is 65–90, `a`–`z` is 97–122, `0`–`9` is 48–57. -/
def pyIsAlnum (c : Char) : Bool :=
  decide ((65 ≤ c.toNat ∧ c.toNat ≤ 90) ∨ (97 ≤ c.toNat ∧ c.toNat ≤ 122) ∨
    (48 ≤ c.toNat ∧ c.toNat ≤ 57))

/-- Worker for `re.sub(r'[^a-zA-Z0-9]+', '_', s)`: the flag records whether
the previous character was part of a non-alphanumeric run (so the run yields
a single underscore). -/
def subNonAlnumGo : Bool → List Char → List Char
  | _, [] => []
  | inRun, c :: cs =>
      if pyIsAlnum c then c :: subNonAlnumGo false cs
      else if inRun then subNonAlnumGo true cs
      else '_' :: subNonAlnumGo true cs

/-- Python `re.sub(r'[^a-zA-Z0-9]+', '_', s)` on the character list. -/
def subNonAlnum (l : List Char) : List Char :=
  subNonAlnumGo false l

/-- Worker for `re.sub(r'_+', '_', s)`. -/
def collapseGo : Bool → List Char → List Char
  | _, [] => []
  | inRun, c :: cs =>
      if c = '_' then
        (if inRun then collapseGo true cs else '_' :: collapseGo true cs)
      else c :: collapseGo false cs

/-- Python `re.sub(r'_+', '_', s)` on the character list. -/
def collapseUnderscores (l : List Char) : List Char :=
  collapseGo false l

/-- Python `s.strip(c)` for underscores: drop leading and trailing ones. -/
def stripUnder (l : List Char) : List Char :=
  stripEnds (fun c => c == '_') l

/-- The identifier `generate_dealer_id` builds before its final `[:50]`
truncation: lower-case, strip, replace non-alphanumeric runs by `_`,
collapse `_` runs, strip `_` from both ends. -/
def cleanedId (name : String) : List Char :=
  stripUnder (collapseUnderscores (subNonAlnum (pyStrip (pyLower name)).data))

/-- The Importer's `generate_dealer_id`. -/
def generate_dealer_id (name : String) : String :=
  String.mk ((cleanedId name).take 50)

/-- Python `re.sub(r'^c\s*-\s*', '', s)` in `clean_phone`: drop a leading
lower-case `c`, optional whitespace, a dash, optional whitespace. -/
def stripLeadingC (s : String) : String :=
  match s.data with
  | 'c' :: rest =>
      match rest.dropWhile pyIsSpace with
      | '-' :: r2 => String.mk (r2.dropWhile pyIsSpace)
      | _ => s
  | _ => s

/-- The Importer's `clean_phone`. -/
def clean_phone : Option String → Option String
  | none => none
  | some p =>
      if stripLeadingC (pyStrip (firstLine p)) = "" then none
      else some (stripLeadingC (pyStrip (firstLine p)))

/-- The Importer's `clean_email`: first line, trimmed; kept (lower-cased)
only when nonempty and containing an `@`. -/
def clean_email : Option String → Option String
  | none => none
  | some e =>
      if !(pyStrip (firstLine e)).data.isEmpty
          && (pyStrip (firstLine e)).data.contains '@' then
        some (pyLower (pyStrip (firstLine e)))
      else none

/-- The Importer's `clean_state`. -/
def clean_state : Option String → Option String
  | none => none
  | some s => some (pyStrip (pyUpper s))

/-- The Importer's `clean_zip` on a present cell. -/
def clean_zip_str (v : CellVal) : String :=
  if pyIsDigit (cellStr v) then zfill 5 (cellStr v) else cellStr v

/-- The Importer's `clean_zip`. -/
def clean_zip : Option CellVal → Option String
  | none => none
  | some v => some (clean_zip_str v)

/-- One dealer record as the Importer's row loop builds it (top50_names is
the `Top 50` sheet's name column; the classification lower-cases and strips
both sides, as `set(df_top50['dealer_name'].str.lower().str.strip())` and
`name.lower().strip() in top50_names` do). -/
def mkDealer (top50_names : List String) (row : Row) : Dealer :=
  let name := match row.dealer_name with
    | some s => pyStrip s
    | none => "Unknown"
  let is_top50 :=
    (top50_names.map fun s => pyStrip (pyLower s)).contains (pyStrip (pyLower name))
  { dealer_id := generate_dealer_id name
    dealer_name := name
    status := "active"
    primary_contact_name := match row.contact_name with
      | some c => some (pyStrip (firstLine c))
      | none => none
    primary_contact_email := clean_email row.email
    primary_phone := clean_phone row.phone
    address :=
      { street := row.address.map pyStrip
        city := row.city.map pyStrip
        state := clean_state row.state
        zip := clean_zip row.zip }
    coverage_zips := match row.zip with
      | some v => [clean_zip_str v]
      | none => []
    coverage_radius_miles := none
    priority_weight := if is_top50 then 100 else 50
    lead_delivery_method := "email"
    is_top50 := is_top50
    notes := row.notes.map pyStrip }

/-! ## Excel Importer: duplicate-identifier handling
(process-dealer-excel.py, `process_excel`, the block under
`# Handle duplicate IDs`) -/

/-- Read of the `seen` dict (`seen.get(base_id, 0)`); updates are modelled by
prepending, so the first match is the latest value. -/
def seenGet (seen : List (String × ℕ)) (k : String) : ℕ :=
  match seen.find? fun p => p.1 == k with
  | some p => p.2
  | none => 0

/-- The dealer loop of the duplicate-handling block: a dealer whose
identifier occurs more than once in the originally generated list gets its
occurrence number appended (`_2`, `_3`, …) from the second occurrence on. -/
def dedupGo (ids : List String) : List (String × ℕ) → List Dealer → List Dealer
  | _, [] => []
  | seen, d :: ds =>
      if ids.count d.dealer_id > 1 then
        (if seenGet seen d.dealer_id + 1 > 1 then
          { d with dealer_id :=
              d.dealer_id ++ "_" ++ toString (seenGet seen d.dealer_id + 1) }
        else d) ::
          dedupGo ids ((d.dealer_id, seenGet seen d.dealer_id + 1) :: seen) ds
      else d :: dedupGo ids seen ds

/-- The duplicate-handling pass (`if duplicates: ...`; the loop is entered
only when some identifier repeats, and is a no-op otherwise either way). -/
def handleDuplicates (dealers : List Dealer) : List Dealer :=
  if dealers.any fun d => (dealers.map Dealer.dealer_id).count d.dealer_id > 1 then
    dedupGo (dealers.map Dealer.dealer_id) [] dealers
  else dealers

/-- The Importer's `process_excel`, from the parsed sheets to the dealer
array (spreadsheet I/O, printing and the JSON write are plumbing). -/
def process_excel (top50_names : List String) (rows : List Row) : List Dealer :=
  handleDuplicates (rows.map (mkDealer top50_names))

/-- An element of `coverage_zips` as the spec's invariant demands it: exactly
5 characters, all digits. -/
def isFiveDigitZip (s : String) : Bool :=
  s.length == 5 && s.data.all Char.isDigit

/-! ## Concrete sample data (used by the closed witness statements) -/

/-- A row with every cell missing. -/
def blankRow : Row :=
  { dealer_name := none, contact_name := none, notes := none, phone := none,
    address := none, city := none, state := none, zip := none, email := none,
    email2 := none, extra := none }

/-- A row carrying only a dealer name. -/
def rowNamed (n : String) : Row :=
  { blankRow with dealer_name := some n }

/-- The dealer-name input refuting the no-trailing-underscore part of the
identifier property: 49 `a`s, a space, and a `b`; its cleaned identifier is
51 characters long and truncation cuts it right after the underscore. -/
def c6Name : String :=
  String.mk (List.replicate 49 'a' ++ [' ', 'b'])

/-- A one-entry reference table. -/
def sampleTable : ZipTable := [("94105", (37.79, -122.41))]

/-- A dealer record as the Importer would emit it for a ZIP-bearing row. -/
def sampleDealer : Dealer :=
  { dealer_id := "acme_motors"
    dealer_name := "Acme Motors"
    status := "active"
    primary_contact_name := none
    primary_contact_email := none
    primary_phone := none
    address := { street := none, city := none, state := none, zip := some "94105" }
    coverage_zips := ["94105"]
    coverage_radius_miles := none
    priority_weight := 50
    lead_delivery_method := "email"
    is_top50 := false
    notes := none }

/-! ## Helper lemmas on the string primitives -/

theorem dropWhile_eq_self_of {p : Char → Bool} {l : List Char}
    (h : ∀ c ∈ l, p c = false) : l.dropWhile p = l := by
  cases l with
  | nil => rfl
  | cons c cs =>
      rw [List.dropWhile_cons, h c (List.mem_cons_self c cs)]
      simp

theorem pyIsSpace_eq_false_of_isDigit {c : Char} (h : c.isDigit = true) :
    pyIsSpace c = false := by
  cases hs : pyIsSpace c with
  | false => rfl
  | true =>
      exfalso
      simp only [pyIsSpace, Bool.or_eq_true, beq_iff_eq] at hs
      rcases hs with ((((rfl | rfl) | rfl) | rfl) | rfl) | rfl <;> simp at h

theorem pyStrip_eq_self_of_digits {s : String}
    (h : ∀ c ∈ s.data, c.isDigit = true) : pyStrip s = s := by
  unfold pyStrip stripEnds
  have h1 : s.data.dropWhile pyIsSpace = s.data :=
    dropWhile_eq_self_of fun c hc => pyIsSpace_eq_false_of_isDigit (h c hc)
  rw [h1]
  have h2 : s.data.reverse.dropWhile pyIsSpace = s.data.reverse :=
    dropWhile_eq_self_of fun c hc =>
      pyIsSpace_eq_false_of_isDigit (h c (List.mem_reverse.mp hc))
  rw [h2, List.reverse_reverse]

/-- Normalization is the identity on exactly-5-digit strings (the helper
behind the spec's idempotence property). -/
theorem normalizeZip_eq_self {s : String} (hlen : s.length = 5)
    (hdig : ∀ c ∈ s.data, c.isDigit = true) : normalizeZip s = s := by
  unfold normalizeZip
  rw [pyStrip_eq_self_of_digits hdig]
  have hne : s.data.isEmpty = false := by
    cases hd : s.data with
    | nil => simp [String.length, hd] at hlen
    | cons c cs => rfl
  have hdigit : pyIsDigit s = true := by
    simp only [pyIsDigit, hne, Bool.not_false, Bool.true_and, List.all_eq_true]
    exact hdig
  simp only [hdigit, if_true]
  unfold zfill
  rw [if_pos (le_of_eq hlen.symm)]
  rw [List.take_of_length_le (le_of_eq hlen)]

/-! ## Haversine lemmas -/

theorem radians_sub (x y : ℝ) : radians (x - y) = radians x - radians y := by
  unfold radians
  ring

theorem arctan2_zero_one : arctan2 0 1 = 0 := by
  unfold arctan2
  rw [if_pos one_pos]
  simp [Real.arctan_zero]

/-- Distance from a point to itself is zero. -/
theorem haversine_vec_self (lat lon : ℝ) : haversine_vec lat lon lat lon = 0 := by
  unfold haversine_vec
  simp only [sub_self]
  have h0 : radians 0 = 0 := by
    unfold radians
    ring
  rw [h0]
  norm_num [Real.sin_zero, Real.sqrt_zero, Real.sqrt_one, arctan2_zero_one]

/-- C2: the Expander's per-pair distance function equals the spec's haversine
formula (radian conversion commutes with the coordinate differences, and
`R * (2 * c) = 2 * R * c`), for every pair of coordinate points. -/
theorem c2_haversine_vec_eq_spec (lat1 lon1 lat2 lon2 : ℝ) :
    haversine_vec lat1 lon1 lat2 lon2 = haversineSpec lat1 lon1 lat2 lon2 := by
  unfold haversine_vec haversineSpec
  rw [radians_sub lat2 lat1, radians_sub lon2 lon1]
  ring

/-- C8: normalizing an already-normalized (exactly five digit characters)
ZIP string returns it unchanged — the Expander's ZIP normalization is
idempotent on its own image. -/
theorem c8_normalizeZip_idempotent (s : String) (hlen : s.length = 5)
    (hdig : ∀ c ∈ s.data, c.isDigit = true) : normalizeZip s = s :=
  normalizeZip_eq_self hlen hdig

theorem c8_normalizeZip_idempotent_witness :
    ("94105" : String).length = 5 ∧ normalizeZip "94105" = "94105" :=
  ⟨by decide, c8_normalizeZip_idempotent "94105" (by decide) (by decide)⟩

/-! ## Expander lemmas -/

theorem lookupCoords_mem_zipKeys {table : ZipTable} {z : String} {c : ℚ × ℚ}
    (h : lookupCoords table z = some c) : z ∈ zipKeys table := by
  induction table with
  | nil => simp [lookupCoords] at h
  | cons e rest ih =>
      obtain ⟨k, c0⟩ := e
      unfold lookupCoords at h
      by_cases hk : k = z
      · subst hk
        exact List.mem_cons_self _ _
      · rw [if_neg hk] at h
        exact List.mem_cons_of_mem _ (ih h)

/-- Membership in the expanded coverage set: exactly the reference keys whose
looked-up coordinates lie within the radius. -/
theorem mem_nearbyZips {table : ZipTable} {radius : ℤ} {lat lon : ℚ}
    {w : String} :
    w ∈ nearbyZips table radius lat lon ↔
      ∃ la lo, lookupCoords table w = some (la, lo) ∧
        haversine_vec (lat : ℝ) (lon : ℝ) (la : ℝ) (lo : ℝ) ≤ (radius : ℝ) := by
  unfold nearbyZips
  rw [List.mem_mergeSort, List.mem_filter]
  constructor
  · rintro ⟨hk, hp⟩
    cases h : lookupCoords table w with
    | none => rw [h] at hp; simp at hp
    | some c =>
        obtain ⟨la, lo⟩ := c
        rw [h] at hp
        simp only [decide_eq_true_eq] at hp
        exact ⟨la, lo, rfl, hp⟩
  · rintro ⟨la, lo, hl, hd⟩
    refine ⟨lookupCoords_mem_zipKeys hl, ?_⟩
    rw [hl]
    simpa using hd

theorem expandDealer_of_none {table : ZipTable} {radius : ℤ} {d : Dealer}
    (hz : d.address.zip = none) :
    expandDealer table radius d = { d with coverage_zips := [] } := by
  simp [expandDealer, hz]

theorem expandDealer_of_empty {table : ZipTable} {radius : ℤ} {d : Dealer}
    (hz : d.address.zip = some "") :
    expandDealer table radius d = { d with coverage_zips := [] } := by
  simp [expandDealer, hz]

theorem expandDealer_of_notFound {table : ZipTable} {radius : ℤ} {d : Dealer}
    {z : String} (hz : d.address.zip = some z) (hne : z ≠ "")
    (hmiss : lookupCoords table (normalizeZip z) = none) :
    expandDealer table radius d = { d with coverage_zips := [normalizeZip z] } := by
  simp [expandDealer, hz, hmiss, hne]

theorem expandDealer_of_found {table : ZipTable} {radius : ℤ} {d : Dealer}
    {z : String} {la lo : ℚ} (hz : d.address.zip = some z) (hne : z ≠ "")
    (hfound : lookupCoords table (normalizeZip z) = some (la, lo)) :
    expandDealer table radius d =
      { d with
        coverage_zips := nearbyZips table radius la lo
        coverage_radius_miles := some radius } := by
  simp [expandDealer, hz, hfound, hne]

/-- C1: for a dealer whose normalized ZIP resolves in the reference table and
a radius at least 0, every ZIP the Expander puts into `coverage_zips` lies at
haversine distance at most the radius from the dealer's home coordinates, and
the dealer's own normalized ZIP is a member (its distance being 0). -/
theorem c1_coverage_within_radius (table : ZipTable) (radius : ℤ) (d : Dealer)
    (z : String) (la lo : ℚ)
    (hz : d.address.zip = some z) (hne : z ≠ "")
    (hfound : lookupCoords table (normalizeZip z) = some (la, lo))
    (hr : 0 ≤ radius) :
    (∀ w ∈ (expandDealer table radius d).coverage_zips,
        ∃ la2 lo2, lookupCoords table w = some (la2, lo2) ∧
          haversine_vec (la : ℝ) (lo : ℝ) (la2 : ℝ) (lo2 : ℝ) ≤ (radius : ℝ)) ∧
      normalizeZip z ∈ (expandDealer table radius d).coverage_zips ∧
      haversine_vec (la : ℝ) (lo : ℝ) (la : ℝ) (lo : ℝ) = 0 := by
  rw [expandDealer_of_found hz hne hfound]
  refine ⟨?_, ?_, haversine_vec_self _ _⟩
  · intro w hw
    exact mem_nearbyZips.mp hw
  · refine mem_nearbyZips.mpr ⟨la, lo, hfound, ?_⟩
    rw [haversine_vec_self]
    exact_mod_cast hr

theorem c1_coverage_within_radius_witness :
    sampleDealer.address.zip = some "94105" ∧
    lookupCoords sampleTable (normalizeZip "94105") = some (37.79, -122.41) ∧
    (0 : ℤ) ≤ 50 ∧
    normalizeZip "94105" ∈ (expandDealer sampleTable 50 sampleDealer).coverage_zips := by
  refine ⟨rfl, rfl, by decide, ?_⟩
  exact (c1_coverage_within_radius sampleTable 50 sampleDealer "94105" 37.79 (-122.41)
    rfl (by decide) rfl (by decide)).2.1

/-- C3: for the same dealer and reference table, a smaller radius yields a
coverage set contained in the one a larger radius yields. -/
theorem c3_coverage_monotone (table : ZipTable) (r1 r2 : ℤ) (d : Dealer)
    (z : String) (la lo : ℚ)
    (hz : d.address.zip = some z) (hne : z ≠ "")
    (hfound : lookupCoords table (normalizeZip z) = some (la, lo))
    (h12 : r1 < r2) :
    (expandDealer table r1 d).coverage_zips ⊆
      (expandDealer table r2 d).coverage_zips := by
  rw [expandDealer_of_found hz hne hfound, expandDealer_of_found hz hne hfound]
  intro w hw
  obtain ⟨la2, lo2, hl, hd⟩ := mem_nearbyZips.mp hw
  refine mem_nearbyZips.mpr ⟨la2, lo2, hl, hd.trans ?_⟩
  exact_mod_cast le_of_lt h12

theorem c3_coverage_monotone_witness :
    (0 : ℤ) < 50 ∧
    lookupCoords sampleTable (normalizeZip "94105") = some (37.79, -122.41) ∧
    (expandDealer sampleTable 0 sampleDealer).coverage_zips ⊆
      (expandDealer sampleTable 50 sampleDealer).coverage_zips := by
  refine ⟨by decide, rfl, ?_⟩
  exact c3_coverage_monotone sampleTable 0 50 sampleDealer "94105" 37.79 (-122.41)
    rfl (by decide) rfl (by decide)

/-- The expanded coverage list is sorted lexicographically (Python `sorted`
on strings, i.e. the linear order on `String`). -/
theorem nearbyZips_sorted (table : ZipTable) (radius : ℤ) (lat lon : ℚ) :
    List.Sorted (fun a b : String => a ≤ b)
      (nearbyZips table radius lat lon) := by
  unfold nearbyZips
  have h := @List.sorted_mergeSort String (fun a b => decide (a ≤ b))
    (fun a b c hab hbc => by
      simp only [decide_eq_true_eq] at hab hbc ⊢
      exact le_trans hab hbc)
    (fun a b => by
      simp only [Bool.or_eq_true, decide_eq_true_eq]
      exact le_total a b)
    ((zipKeys table).filter fun w =>
      match lookupCoords table w with
      | some (la, lo) =>
          decide (haversine_vec (lat : ℝ) (lon : ℝ) (la : ℝ) (lo : ℝ) ≤ (radius : ℝ))
      | none => false)
  exact h.imp fun hab => of_decide_eq_true hab

/-- C4: every dealer record lands in exactly one of the three outcomes, with
the effects the spec lists: no (or falsy) ZIP — `coverage_zips := []` and the
radius field untouched; normalized ZIP absent from the table —
`coverage_zips := [normalized ZIP]` and the radius field untouched; ZIP found
— `coverage_zips` is the lexicographically sorted list of exactly the
reference ZIPs within the radius (inclusive), and `coverage_radius_miles` is
set to the radius used. -/
theorem c4_outcome_trichotomy (table : ZipTable) (radius : ℤ) (d : Dealer) :
    match expandOutcome table d with
    | .skippedNoZip =>
        (d.address.zip = none ∨ d.address.zip = some "") ∧
        (expandDealer table radius d).coverage_zips = [] ∧
        (expandDealer table radius d).coverage_radius_miles =
          d.coverage_radius_miles
    | .skippedNotFound =>
        ∃ z, d.address.zip = some z ∧ z ≠ "" ∧
          lookupCoords table (normalizeZip z) = none ∧
          (expandDealer table radius d).coverage_zips = [normalizeZip z] ∧
          (expandDealer table radius d).coverage_radius_miles =
            d.coverage_radius_miles
    | .expanded =>
        ∃ z la lo, d.address.zip = some z ∧ z ≠ "" ∧
          lookupCoords table (normalizeZip z) = some (la, lo) ∧
          List.Sorted (fun a b : String => a ≤ b)
            (expandDealer table radius d).coverage_zips ∧
          (∀ w, w ∈ (expandDealer table radius d).coverage_zips ↔
            ∃ la2 lo2, lookupCoords table w = some (la2, lo2) ∧
              haversine_vec (la : ℝ) (lo : ℝ) (la2 : ℝ) (lo2 : ℝ) ≤ (radius : ℝ)) ∧
          (expandDealer table radius d).coverage_radius_miles = some radius := by
  cases hz : d.address.zip with
  | none =>
      have hout : expandOutcome table d = .skippedNoZip := by
        simp [expandOutcome, hz]
      rw [hout, expandDealer_of_none hz]
      exact ⟨Or.inl rfl, rfl, rfl⟩
  | some z =>
      by_cases hz0 : z = ""
      · subst hz0
        have hout : expandOutcome table d = .skippedNoZip := by
          simp [expandOutcome, hz]
        rw [hout, expandDealer_of_empty hz]
        exact ⟨Or.inr rfl, rfl, rfl⟩
      · cases hl : lookupCoords table (normalizeZip z) with
        | none =>
            have hout : expandOutcome table d = .skippedNotFound := by
              simp [expandOutcome, hz, hz0, hl]
            rw [hout, expandDealer_of_notFound hz hz0 hl]
            exact ⟨z, rfl, hz0, hl, rfl, rfl⟩
        | some c =>
            obtain ⟨la, lo⟩ := c
            have hout : expandOutcome table d = .expanded := by
              simp [expandOutcome, hz, hz0, hl]
            rw [hout, expandDealer_of_found hz hz0 hl]
            exact ⟨z, la, lo, rfl, hz0, hl, nearbyZips_sorted table radius la lo,
              fun w => mem_nearbyZips, rfl⟩

/-! ## Identifier-shape lemmas (generate_dealer_id) -/

theorem char_toNat_ofNat_valid {n : Nat} (h : n < 55296) :
    (Char.ofNat n).toNat = n := by
  unfold Char.ofNat
  rw [dif_pos (Or.inl h)]
  rfl

/-- ASCII lower-casing never produces a character in the upper-case range. -/
theorem toLower_not_upper_range (c : Char) :
    ¬(65 ≤ (Char.toLower c).toNat ∧ (Char.toLower c).toNat ≤ 90) := by
  unfold Char.toLower
  simp only []
  by_cases h : 65 ≤ c.toNat ∧ c.toNat ≤ 90
  case pos =>
    rw [if_pos h]
    rw [char_toNat_ofNat_valid (by omega)]
    omega
  case neg =>
    rw [if_neg h]
    omega

theorem mem_subNonAlnumGo {c : Char} (l : List Char) :
    ∀ b, c ∈ subNonAlnumGo b l → c = '_' ∨ (c ∈ l ∧ pyIsAlnum c = true) := by
  induction l with
  | nil =>
      intro b h
      simp [subNonAlnumGo] at h
  | cons x xs ih =>
      intro b h
      unfold subNonAlnumGo at h
      split at h
      case isTrue ha =>
        rcases List.mem_cons.mp h with rfl | h2
        · exact Or.inr ⟨List.mem_cons_self _ _, ha⟩
        · rcases ih false h2 with h3 | ⟨h4, h5⟩
          · exact Or.inl h3
          · exact Or.inr ⟨List.mem_cons_of_mem _ h4, h5⟩
      case isFalse ha =>
        split at h
        case isTrue hb =>
          rcases ih true h with h3 | ⟨h4, h5⟩
          · exact Or.inl h3
          · exact Or.inr ⟨List.mem_cons_of_mem _ h4, h5⟩
        case isFalse hb =>
          rcases List.mem_cons.mp h with rfl | h2
          · exact Or.inl rfl
          · rcases ih true h2 with h3 | ⟨h4, h5⟩
            · exact Or.inl h3
            · exact Or.inr ⟨List.mem_cons_of_mem _ h4, h5⟩

theorem mem_collapseGo {c : Char} (l : List Char) :
    ∀ b, c ∈ collapseGo b l → c = '_' ∨ c ∈ l := by
  induction l with
  | nil =>
      intro b h
      simp [collapseGo] at h
  | cons x xs ih =>
      intro b h
      unfold collapseGo at h
      split at h
      case isTrue hx =>
        split at h
        case isTrue hb =>
          rcases ih true h with h3 | h4
          · exact Or.inl h3
          · exact Or.inr (List.mem_cons_of_mem _ h4)
        case isFalse hb =>
          rcases List.mem_cons.mp h with rfl | h2
          · exact Or.inl rfl
          · rcases ih true h2 with h3 | h4
            · exact Or.inl h3
            · exact Or.inr (List.mem_cons_of_mem _ h4)
      case isFalse hx =>
        rcases List.mem_cons.mp h with rfl | h2
        · exact Or.inr (List.mem_cons_self _ _)
        · rcases ih false h2 with h3 | h4
          · exact Or.inl h3
          · exact Or.inr (List.mem_cons_of_mem _ h4)

/-- The output of the collapse pass in `inRun = true` state never starts with
an underscore. -/
theorem collapseGo_true_head (l : List Char) :
    ∀ c, (collapseGo true l).head? = some c → c ≠ '_' := by
  induction l with
  | nil =>
      intro c h
      simp [collapseGo] at h
  | cons x xs ih =>
      intro c h
      unfold collapseGo at h
      split at h
      case isTrue hx =>
        rw [if_pos rfl] at h
        exact ih c h
      case isFalse hx =>
        simp only [List.head?_cons, Option.some.injEq] at h
        subst h
        exact hx

/-- After collapsing, no two consecutive underscores remain. -/
theorem collapseGo_chain (l : List Char) :
    ∀ b, List.Chain' (fun a c => ¬(a = '_' ∧ c = '_')) (collapseGo b l) := by
  induction l with
  | nil =>
      intro b
      simp [collapseGo]
  | cons x xs ih =>
      intro b
      unfold collapseGo
      split
      case isTrue hx =>
        split
        case isTrue hb => exact ih true
        case isFalse hb =>
          rw [List.chain'_cons']
          refine ⟨?_, ih true⟩
          intro y hy hcon
          exact collapseGo_true_head xs y (Option.mem_def.mp hy) hcon.2
      case isFalse hx =>
        rw [List.chain'_cons']
        refine ⟨?_, ih false⟩
        intro y hy hcon
        exact hx hcon.1

/-! ## stripEnds lemmas -/

theorem stripEnds_prefix_dropWhile (p : Char → Bool) (l : List Char) :
    stripEnds p l <+: l.dropWhile p := by
  unfold stripEnds
  have h2 : ((l.dropWhile p).reverse.dropWhile p) <:+ (l.dropWhile p).reverse :=
    List.dropWhile_suffix _
  have h4 := List.reverse_prefix.mpr h2
  rw [List.reverse_reverse] at h4
  exact h4

theorem stripEnds_within (p : Char → Bool) (l : List Char) :
    stripEnds p l <:+: l :=
  List.IsInfix.trans ( List.IsPrefix.isInfix (stripEnds_prefix_dropWhile p l))
    ( List.IsSuffix.isInfix (List.dropWhile_suffix p))

theorem head?_dropWhile_not {p : Char → Bool} {c : Char} (l : List Char)
    (h : (l.dropWhile p).head? = some c) : p c = false := by
  induction l with
  | nil => simp [List.dropWhile] at h
  | cons x xs ih =>
      rw [List.dropWhile_cons] at h
      by_cases hx : p x = true
      · rw [if_pos hx] at h
        exact ih h
      · rw [if_neg hx] at h
        simp only [List.head?_cons, Option.some.injEq] at h
        subst h
        exact Bool.not_eq_true _ |>.mp hx

theorem head?_of_longer {α : Type} {l₁ l₂ : List α} {c : α} (hp : l₁ <+: l₂)
    (h : l₁.head? = some c) : l₂.head? = some c := by
  obtain ⟨t, rfl⟩ := hp
  cases l₁ with
  | nil => simp at h
  | cons x xs => simpa using h

theorem stripEnds_head {p : Char → Bool} {l : List Char} {c : Char}
    (h : (stripEnds p l).head? = some c) : p c = false :=
  head?_dropWhile_not l (head?_of_longer (stripEnds_prefix_dropWhile p l) h)

theorem stripEnds_getLast {p : Char → Bool} {l : List Char} {c : Char}
    (h : (stripEnds p l).getLast? = some c) : p c = false := by
  unfold stripEnds at h
  rw [List.getLast?_reverse] at h
  exact head?_dropWhile_not _ h

/-- Every character of the cleaned identifier is an underscore or an
alphanumeric character of the lower-cased, stripped name. -/
theorem mem_cleanedId {c : Char} {name : String} (h : c ∈ cleanedId name) :
    c = '_' ∨ (c ∈ (pyStrip (pyLower name)).data ∧ pyIsAlnum c = true) := by
  unfold cleanedId stripUnder at h
  have h1 : c ∈ collapseUnderscores (subNonAlnum (pyStrip (pyLower name)).data) :=
    ( stripEnds_within _ _).subset h
  unfold collapseUnderscores at h1
  rcases mem_collapseGo _ false h1 with h2 | h2
  · exact Or.inl h2
  · unfold subNonAlnum at h2
    exact mem_subNonAlnumGo _ false h2

/-- C6 (amended): every generated identifier consists only of lower-case
letters (code points 97–122), digits (48–57) and non-consecutive
underscores, never begins with an underscore, and is at most 50 characters;
it also never ends with an underscore provided the cleaned identifier was at
most 50 characters before the final `[:50]` truncation (truncation can cut
immediately after an interior underscore, which is the only way a trailing
underscore arises). -/
theorem c6_generate_dealer_id_shape (name : String) :
    (∀ c ∈ (generate_dealer_id name).data,
        (97 ≤ c.toNat ∧ c.toNat ≤ 122) ∨ (48 ≤ c.toNat ∧ c.toNat ≤ 57) ∨ c = '_') ∧
    List.Chain' (fun a b => ¬(a = '_' ∧ b = '_')) (generate_dealer_id name).data ∧
    (∀ c, (generate_dealer_id name).data.head? = some c → c ≠ '_') ∧
    (generate_dealer_id name).length ≤ 50 ∧
    ((cleanedId name).length ≤ 50 →
      ∀ c, (generate_dealer_id name).data.getLast? = some c → c ≠ '_') := by
  have hdata : (generate_dealer_id name).data = (cleanedId name).take 50 := rfl
  refine ⟨?_, ?_, ?_, ?_, ?_⟩
  · intro c hc
    rw [hdata] at hc
    have hc2 : c ∈ cleanedId name := List.take_subset _ _ hc
    rcases mem_cleanedId hc2 with rfl | ⟨hmem, halnum⟩
    · exact Or.inr (Or.inr rfl)
    · have hmem2 : c ∈ stripEnds pyIsSpace (pyLower name).data := hmem
      have hc3 : c ∈ name.data.map Char.toLower :=
        ( stripEnds_within pyIsSpace (pyLower name).data).subset hmem2
      obtain ⟨c0, hc0mem, rfl⟩ := List.mem_map.mp hc3
      have hup := toLower_not_upper_range c0
      simp only [pyIsAlnum, decide_eq_true_eq] at halnum
      rcases halnum with h | h | h
      · exact absurd h hup
      · exact Or.inl h
      · exact Or.inr (Or.inl h)
  · rw [hdata]
    have hch : List.Chain' (fun a b => ¬(a = '_' ∧ b = '_')) (cleanedId name) := by
      have hc := collapseGo_chain (subNonAlnum (pyStrip (pyLower name)).data) false
      unfold cleanedId stripUnder
      exact hc.infix ( stripEnds_within _ _)
    exact hch.prefix ( List.take_prefix _ _)
  · intro c hc
    rw [hdata] at hc
    have h2 := head?_of_longer ( List.take_prefix _ _) hc
    unfold cleanedId stripUnder at h2
    have h3 := @stripEnds_head (fun x => x == '_')
      (collapseUnderscores (subNonAlnum (pyStrip (pyLower name)).data)) c h2
    have h4 : (c == '_') = false := h3
    exact beq_eq_false_iff_ne.mp h4
  · rw [String.length, hdata, List.length_take]
    exact min_le_left _ _
  · intro hlen c hc
    rw [hdata, List.take_of_length_le hlen] at hc
    unfold cleanedId stripUnder at hc
    have h3 := @stripEnds_getLast (fun x => x == '_')
      (collapseUnderscores (subNonAlnum (pyStrip (pyLower name)).data)) c hc
    have h4 : (c == '_') = false := h3
    exact beq_eq_false_iff_ne.mp h4

/-- C6 counterexample: for the 51-character name of 49 `a`s, a space and a
`b`, the generated identifier is exactly 50 characters and ends in an
underscore — truncation happens after stripping, so the claimed
no-trailing-underscore property fails. -/
theorem c6_counterexample_trailing_underscore :
    (generate_dealer_id c6Name).data.getLast? = some '_' ∧
    (generate_dealer_id c6Name).length = 50 := by
  constructor
  · decide
  · decide

/-! ## Importer theorems -/

/-- C10: every dealer record the Importer produces carries the field
`lead_delivery_method` with the constant value `"email"`. -/
theorem c10_lead_delivery_method (top50_names : List String) (row : Row) :
    (mkDealer top50_names row).lead_delivery_method = "email" := rfl

/-- C5 fails on the code: for the three rows named `Acme`, `Acme`, `Acme 2`,
the generated identifiers are `acme`, `acme`, `acme_2`; the deduplication
pass renames the second `Acme` to `acme_2`, which collides with the dealer
whose bare identifier is already `acme_2`, so the output identifiers are not
pairwise distinct. -/
theorem c5_dedup_collision :
    (process_excel [] [rowNamed "Acme", rowNamed "Acme", rowNamed "Acme 2"]).map
        Dealer.dealer_id = ["acme", "acme_2", "acme_2"] ∧
    ¬ ((process_excel [] [rowNamed "Acme", rowNamed "Acme", rowNamed "Acme 2"]).map
        Dealer.dealer_id).Nodup := by
  exact ⟨by decide, by decide⟩

/-! ## Five-digit shape lemmas -/

theorem zfill_isFiveDigit {s : String} (hd : pyIsDigit s = true)
    (hl : s.length ≤ 5) : isFiveDigitZip (zfill 5 s) = true := by
  unfold pyIsDigit at hd
  rw [Bool.and_eq_true, List.all_eq_true] at hd
  unfold zfill isFiveDigitZip
  by_cases h5 : 5 ≤ s.length
  · rw [if_pos h5, Bool.and_eq_true, beq_iff_eq, List.all_eq_true]
    exact ⟨le_antisymm hl h5, hd.2⟩
  · rw [if_neg h5, Bool.and_eq_true, beq_iff_eq, List.all_eq_true]
    constructor
    · show (List.replicate (5 - s.length) '0' ++ s.data).length = 5
      rw [List.length_append, List.length_replicate]
      have hsd : s.length = s.data.length := rfl
      omega
    · intro c hc
      rcases List.mem_append.mp hc with h | h
      · rw [List.eq_of_mem_replicate h]
        decide
      · exact hd.2 c h

theorem take5_zfill_isFiveDigit {t : String}
    (hd : ∀ c ∈ t.data, c.isDigit = true) :
    isFiveDigitZip (String.mk ((zfill 5 t).data.take 5)) = true := by
  have hsd : t.length = t.data.length := rfl
  have hlen5 : 5 ≤ (zfill 5 t).data.length := by
    unfold zfill
    by_cases h5 : 5 ≤ t.length
    · rw [if_pos h5]
      omega
    · rw [if_neg h5]
      show 5 ≤ (List.replicate (5 - t.length) '0' ++ t.data).length
      rw [List.length_append, List.length_replicate]
      omega
  have hdig : ∀ c ∈ (zfill 5 t).data, c.isDigit = true := by
    unfold zfill
    by_cases h5 : 5 ≤ t.length
    · rw [if_pos h5]
      exact hd
    · rw [if_neg h5]
      intro c hc
      rcases List.mem_append.mp hc with h | h
      · rw [List.eq_of_mem_replicate h]
        decide
      · exact hd c h
  unfold isFiveDigitZip
  rw [Bool.and_eq_true, beq_iff_eq, List.all_eq_true]
  constructor
  · show ((zfill 5 t).data.take 5).length = 5
    rw [List.length_take]
    omega
  · intro c hc
    exact hdig c (List.take_subset _ _ hc)

/-- Whatever the input, the Expander's normalized ZIP is exactly 5 digit
characters. -/
theorem normalizeZip_isFiveDigit (z : String) :
    isFiveDigitZip (normalizeZip z) = true := by
  show isFiveDigitZip (String.mk ((zfill 5
    (if pyIsDigit (pyStrip z) = true then pyStrip z
     else String.mk ((pyStrip z).data.filter Char.isDigit))).data.take 5)) = true
  apply take5_zfill_isFiveDigit
  by_cases h : pyIsDigit (pyStrip z) = true
  · rw [if_pos h]
    unfold pyIsDigit at h
    rw [Bool.and_eq_true, List.all_eq_true] at h
    exact h.2
  · rw [if_neg h]
    intro c hc
    exact (List.mem_filter.mp hc).2

/-- C7 counterexample: the Importer's `clean_zip` passes a non-numeric ZIP
cell through unchanged, so `"ABC"` lands in `coverage_zips` although it is
not a 5-digit zero-padded string. -/
theorem c7_counterexample_nonnumeric_zip :
    "ABC" ∈ (mkDealer [] { blankRow with
      zip := some (CellVal.txt "ABC") }).coverage_zips ∧
    isFiveDigitZip "ABC" = false := by
  exact ⟨by decide, by decide⟩

/-- C7 (amended): Importer records satisfy the 5-digit invariant whenever
the ZIP cell's string form is a digit string of at most five characters
(otherwise `clean_zip` passes the value through unchanged); Expander records
satisfy it for the skip branches unconditionally, while the expanded branch
draws its elements from the reference-table keys (5-digit provided the table
keys are). -/
theorem c7_coverage_zip_shape (top50_names : List String) (row : Row)
    (table : ZipTable) (radius : ℤ) (d : Dealer) :
    (∀ v, row.zip = some v → pyIsDigit (cellStr v) = true →
      (cellStr v).length ≤ 5 →
      ∀ w ∈ (mkDealer top50_names row).coverage_zips, isFiveDigitZip w = true) ∧
    (∀ w ∈ (expandDealer table radius d).coverage_zips,
      isFiveDigitZip w = true ∨ w ∈ zipKeys table) := by
  constructor
  · intro v hv hd hl w hw
    have hcov : (mkDealer top50_names row).coverage_zips = [clean_zip_str v] := by
      simp [mkDealer, hv]
    rw [hcov, List.mem_singleton] at hw
    subst hw
    unfold clean_zip_str
    rw [if_pos hd]
    exact zfill_isFiveDigit hd hl
  · intro w hw
    cases hz : d.address.zip with
    | none =>
        rw [expandDealer_of_none hz] at hw
        simp at hw
    | some z =>
        by_cases hz0 : z = ""
        · subst hz0
          rw [expandDealer_of_empty hz] at hw
          simp at hw
        · cases hl2 : lookupCoords table (normalizeZip z) with
          | none =>
              rw [expandDealer_of_notFound hz hz0 hl2] at hw
              simp only [List.mem_singleton] at hw
              subst hw
              exact Or.inl (normalizeZip_isFiveDigit z)
          | some c =>
              obtain ⟨la, lo⟩ := c
              rw [expandDealer_of_found hz hz0 hl2] at hw
              obtain ⟨la2, lo2, hlk, hdist⟩ := mem_nearbyZips.mp hw
              exact Or.inr (lookupCoords_mem_zipKeys hlk)

/-! ## Round-trip (radius 0) lemmas -/

theorem lookupCoords_of_mem_zipKeys {table : ZipTable} {w : String}
    (h : w ∈ zipKeys table) : ∃ c, lookupCoords table w = some c := by
  induction table with
  | nil => simp [zipKeys] at h
  | cons e rest ih =>
      obtain ⟨k, c0⟩ := e
      unfold lookupCoords
      by_cases hk : k = w
      · rw [if_pos hk]
        exact ⟨c0, rfl⟩
      · rw [if_neg hk]
        unfold zipKeys at h
        rcases List.mem_cons.mp h with h1 | h1
        · exact absurd h1.symm hk
        · exact ih h1

/-- With radius 0, duplicate-free keys, and no other table entry at
distance 0 from the center, the expanded set is exactly the dealer's own
ZIP. -/
theorem nearbyZips_radius_zero_self {table : ZipTable} {z : String}
    {la lo : ℚ}
    (hnodup : (zipKeys table).Nodup)
    (hz : lookupCoords table z = some (la, lo))
    (huniq : ∀ w la2 lo2, lookupCoords table w = some (la2, lo2) →
      haversine_vec (la : ℝ) (lo : ℝ) (la2 : ℝ) (lo2 : ℝ) ≤ 0 → w = z) :
    nearbyZips table 0 la lo = [z] := by
  unfold nearbyZips
  have hfe : ((zipKeys table).filter fun w =>
      match lookupCoords table w with
      | some (la2, lo2) =>
          decide (haversine_vec ((la : ℚ) : ℝ) ((lo : ℚ) : ℝ) ((la2 : ℚ) : ℝ)
            ((lo2 : ℚ) : ℝ) ≤ (((0 : ℤ) : ℤ) : ℝ))
      | none => false) = (zipKeys table).filter fun w => w == z := by
    apply List.filter_congr
    intro w hw
    obtain ⟨⟨la2, lo2⟩, hlk⟩ := lookupCoords_of_mem_zipKeys hw
    rw [hlk]
    by_cases hd : haversine_vec (la : ℝ) (lo : ℝ) (la2 : ℝ) (lo2 : ℝ) ≤ 0
    · have hwz : w = z := huniq w la2 lo2 hlk hd
      subst hwz
      simp only [beq_self_eq_true]
      rw [decide_eq_true_eq]
      exact_mod_cast hd
    · have hwz : w ≠ z := by
        intro he
        subst he
        rw [hlk] at hz
        simp only [Option.some.injEq, Prod.mk.injEq] at hz
        obtain ⟨h1, h2⟩ := hz
        subst h1
        subst h2
        exact hd (le_of_eq (haversine_vec_self _ _))
      rw [beq_eq_false_iff_ne.mpr hwz, decide_eq_false_iff_not]
      intro hcon
      exact hd (by exact_mod_cast hcon)
  rw [hfe, List.filter_beq,
    List.count_eq_one_of_mem hnodup (lookupCoords_mem_zipKeys hz),
    List.replicate_one]
  exact List.perm_singleton.mp (List.mergeSort_perm [z] _)

/-- Rewriting a field to the value it already holds is the identity. -/
theorem dealer_set_coverage_eq_self {d : Dealer} {l : List String}
    (h : d.coverage_zips = l) : { d with coverage_zips := l } = d := by
  subst h
  rfl

/-- Parsing the five-digit shape predicate. -/
theorem isFiveDigitZip_spec {s : String} (h : isFiveDigitZip s = true) :
    s.length = 5 ∧ ∀ c ∈ s.data, c.isDigit = true := by
  unfold isFiveDigitZip at h
  rw [Bool.and_eq_true, beq_iff_eq, List.all_eq_true] at h
  exact h

/-- C9 (amended): an Importer-generated, not-yet-expanded record fed through
the Expander with radius 0.  If the ZIP cell is missing, or its cleaned form
is a 5-digit string that is not a key of the reference table, the record is
unchanged.  If the cleaned 5-digit ZIP resolves, the table's keys are
duplicate-free, and no other table entry lies at distance 0 from the
dealer's coordinates, the resulting `coverage_zips` is exactly the
one-element list of the dealer's own ZIP.  (As stated the claim fails: a
cleaned ZIP that is not a 5-digit string is re-normalized by the Expander,
changing the record even when the ZIP does not resolve, and a co-located
table entry would also enter the radius-0 coverage set.) -/
theorem c9_round_trip_radius_zero (top50_names : List String) (row : Row)
    (table : ZipTable) :
    (row.zip = none → expandDealer table 0 (mkDealer top50_names row) =
      mkDealer top50_names row) ∧
    (∀ v, row.zip = some v → isFiveDigitZip (clean_zip_str v) = true →
      lookupCoords table (clean_zip_str v) = none →
      expandDealer table 0 (mkDealer top50_names row) =
        mkDealer top50_names row) ∧
    (∀ v la lo, row.zip = some v → isFiveDigitZip (clean_zip_str v) = true →
      lookupCoords table (clean_zip_str v) = some (la, lo) →
      (zipKeys table).Nodup →
      (∀ w la2 lo2, lookupCoords table w = some (la2, lo2) →
        haversine_vec (la : ℝ) (lo : ℝ) (la2 : ℝ) (lo2 : ℝ) ≤ 0 →
        w = clean_zip_str v) →
      (expandDealer table 0 (mkDealer top50_names row)).coverage_zips =
        [clean_zip_str v]) := by
  refine ⟨?_, ?_, ?_⟩
  · intro hz
    have haz : (mkDealer top50_names row).address.zip = none := by
      simp [mkDealer, hz, clean_zip]
    rw [expandDealer_of_none haz]
    apply dealer_set_coverage_eq_self
    simp [mkDealer, hz]
  · intro v hv h5 hnf
    obtain ⟨hlen, hdig⟩ := isFiveDigitZip_spec h5
    have hne : clean_zip_str v ≠ "" := by
      intro h0
      rw [h0] at hlen
      simp [String.length] at hlen
    have hnz : normalizeZip (clean_zip_str v) = clean_zip_str v :=
      normalizeZip_eq_self hlen hdig
    have haz : (mkDealer top50_names row).address.zip =
        some (clean_zip_str v) := by
      simp [mkDealer, hv, clean_zip]
    rw [expandDealer_of_notFound haz hne (by rw [hnz]; exact hnf)]
    apply dealer_set_coverage_eq_self
    rw [hnz]
    simp [mkDealer, hv]
  · intro v la lo hv h5 hfound hnodup huniq
    obtain ⟨hlen, hdig⟩ := isFiveDigitZip_spec h5
    have hne : clean_zip_str v ≠ "" := by
      intro h0
      rw [h0] at hlen
      simp [String.length] at hlen
    have hnz : normalizeZip (clean_zip_str v) = clean_zip_str v :=
      normalizeZip_eq_self hlen hdig
    have haz : (mkDealer top50_names row).address.zip =
        some (clean_zip_str v) := by
      simp [mkDealer, hv, clean_zip]
    rw [expandDealer_of_found haz hne (by rw [hnz]; exact hfound)]
    exact nearbyZips_radius_zero_self hnodup hfound huniq

/-- C9 counterexample: the Importer passes the six-digit ZIP `"123456"`
through unchanged, the Expander truncates it to `"12345"`, which does not
resolve in the (here empty) reference table — yet the record changes,
contradicting the claim's "unchanged if it does not resolve". -/
theorem c9_counterexample_six_digit_zip :
    lookupCoords [] (normalizeZip "123456") = none ∧
    expandDealer [] 0 (mkDealer []
        { blankRow with zip := some (CellVal.txt "123456") }) ≠
      mkDealer [] { blankRow with zip := some (CellVal.txt "123456") } := by
  exact ⟨by decide, by decide⟩
